import Mathlib

/-!
Verification of the password codec in pdftk/passwords.cc.

The C function `utf8_password_to_pdfdoc( jbyte* bb, const char* ss, int ss_size,
bool encrypt_b )` decodes a UTF-8 byte sequence one code point at a time,
classifies each code point (directly representable, remapped via a fixed table
or a switch of special cases, or invalid) and writes one legacy byte per code
point into `bb`, returning the byte count, or -1 on failure.  When `bb` is null
the call is a dry run that only counts.

Shallow embedding conventions:
  - input bytes are `Nat` values (a C `char` read through the masks used by the
    code behaves, for byte values 0..255, exactly like these Nat computations);
  - the output buffer is a total function `Nat -> Nat`; a write stores the
    value reduced mod 256, mirroring the truncation to `jbyte`;
  - the for-loop is expressed as recursion on the input list; the loop guard
    `ii < ss_size && ss[ii] && ret_val != -1` becomes the list end, the
    `nulStop` case and the propagation of `none` / -1;
  - one iteration of the loop head (the guard on `ss[ii]` plus the UTF-8
    decoding if/else-if chain) is the function `utf8DecodeStep`, whose result
    says how many bytes the iteration consumed; the constructor arms that
    re-destruct the list in the loop bodies below are forced by that count;
  - `convertLoop` returns the list of emitted bytes (its length is the final
    `ret_val`), `none` standing for the -1 sentinel; `convertRealLoop` threads
    the buffer and `ret_val` exactly as the C loop does.
-/

/-- Embeds the C array `unicode_latin_extended_windows_map` (code points
U+0100..U+01FF, 256 entries), values transcribed literally from the source. -/
def unicode_latin_extended_windows_map : List Nat :=
  [ 0x41, 0x61, 0xC3, 0xC4, 0xA5, 0xB9, 0xC6, 0xE6,
    0x2E, 0x2E, 0x2E, 0x2E, 0xC8, 0xE8, 0xCF, 0xEF,
    0xD0, 0xF0, 0x45, 0x65, 0x2E, 0x2E, 0x45, 0x65,
    0xCA, 0xEA, 0xCC, 0xEC, 0x2E, 0x2E, 0x47, 0x67,
    0x2E, 0x2E, 0x47, 0x67, 0x2E, 0x2E, 0x2E, 0x2E,
    0x2E, 0x2E, 0x49, 0x69, 0x2E, 0x2E, 0x49, 0x69,
    0x49, 0x69, 0x2E, 0x2E, 0x2E, 0x2E, 0x4B, 0x6B,
    0x2E, 0xC5, 0xE5, 0x4C, 0x6C, 0xBC, 0xBE, 0x2E,
    0x2E, 0xA3, 0xB3, 0xD1, 0xF1, 0x4E, 0x6E, 0xD2,
    0xF2, 0x2E, 0x2E, 0x2E, 0x4F, 0x6F, 0x2E, 0x2E,
    0xD5, 0xF5, 0o226, 0o234, 0xC0, 0xE0, 0x52, 0x72,
    0xD8, 0xF8, 0x8C, 0x9C, 0x2E, 0x2E, 0xAA, 0xBA,
    0x8A, 0x9A, 0xDE, 0xFE, 0x8D, 0x9D, 0x54, 0x74,
    0x2E, 0x2E, 0x55, 0x75, 0x2E, 0x2E, 0xD9, 0xF9,
    0xDB, 0xFB, 0x55, 0x75, 0x2E, 0x2E, 0x2E, 0x2E,
    0o230, 0x8F, 0x9F, 0xAF, 0xBF, 0o231, 0o236, 0x2E,
    0x62, 0x2E, 0x2E, 0x2E, 0x2E, 0x2E, 0x2E, 0x2E,
    0x2E, 0xD0, 0x2E, 0x2E, 0x2E, 0x2E, 0x2E, 0x2E,
    0x2E, 0x83, 0x83, 0x2E, 0x2E, 0x2E, 0x2E, 0x49,
    0x2E, 0x2E, 0x6C, 0x2E, 0x2E, 0x2E, 0x2E, 0x4F,
    0x4F, 0x6F, 0x2E, 0x2E, 0x2E, 0x2E, 0x2E, 0x2E,
    0x2E, 0x2E, 0x2E, 0x74, 0x2E, 0x2E, 0x54, 0x55,
    0x75, 0x2E, 0x2E, 0x2E, 0x2E, 0x2E, 0x2E, 0x2E,
    0x2E, 0x2E, 0x2E, 0x2E, 0x2E, 0x2E, 0x2E, 0x2E,
    0x7C, 0x2E, 0x2E, 0x21, 0x2E, 0x2E, 0x2E, 0x2E,
    0x2E, 0x2E, 0x2E, 0x2E, 0x2E, 0x2E, 0x2E, 0x2E,
    0x2E, 0x2E, 0x2E, 0x2E, 0x2E, 0x2E, 0x2E, 0x2E,
    0x2E, 0x2E, 0x2E, 0x2E, 0x2E, 0x2E, 0x41, 0x61,
    0x2E, 0x2E, 0x2E, 0x2E, 0x47, 0x67, 0x2E, 0x2E,
    0x2E, 0x2E, 0x2E, 0x2E, 0x4F, 0x6F, 0x2E, 0x2E,
    0x2E, 0x2E, 0x2E, 0x2E, 0x2E, 0x2E, 0x2E, 0x2E,
    0x2E, 0x2E, 0x2E, 0x2E, 0x2E, 0x2E, 0x2E, 0x2E ]

/-- Embeds the classification of one decoded code point `data`: the direct
ranges, then the first switch (eight always-remapped points, in source order),
then the `encrypt_b` test, then the permissive-only table range and the second
switch, in source order.  `none` stands for setting `ret_val` to -1. -/
def classify (encrypt_b : Bool) (data : Nat) : Option Nat :=
  if (0x20 ≤ data ∧ data < 0x7F) ∨ (0xA0 ≤ data ∧ data ≤ 0xFF) then some data
  else if data = 0x0152 then some 0o226
  else if data = 0x0153 then some 0o234
  else if data = 0x0160 then some 0o227
  else if data = 0x017E then some 0o236
  else if data = 0x0178 then some 0o230
  else if data = 0x017D then some 0o231
  else if data = 0x0192 then some 0o206
  else if data = 0x0161 then some 0o235
  else if encrypt_b then none
  else if 0x100 ≤ data ∧ data ≤ 0x1FF then
    some (unicode_latin_extended_windows_map.getD (data - 0x100) 0)
  else if data = 0x20AC then some 0o240
  else if data = 0x2022 then some 0o200
  else if data = 0x2020 then some 0o201
  else if data = 0x2021 then some 0o202
  else if data = 0x2026 then some 0o203
  else if data = 0x02C6 then some 0o032
  else if data = 0x2014 then some 0o204
  else if data = 0x2013 then some 0o205
  else if data = 0x2039 then some 0o210
  else if data = 0x203A then some 0o211
  else if data = 0x2030 then some 0o213
  else if data = 0x201E then some 0o214
  else if data = 0x201C then some 0o215
  else if data = 0x201D then some 0o216
  else if data = 0x2018 then some 0o217
  else if data = 0x2019 then some 0o220
  else if data = 0x201A then some 0o221
  else if data = 0x02DC then some 0o037
  else if data = 0x2122 then some 0o222
  else none

/-- Embeds the two-byte guard
`(ss[ii] & 0xE0) == 0xC0 && ii+1 < ss_size && (ss[ii+1] & 0xC0) == 0x80`:
`rest` is the input after the lead byte, so `ii+1 < ss_size` is `rest` being
nonempty. -/
def twoByteOK (b : Nat) (rest : List Nat) : Bool :=
  b &&& 0xE0 == 0xC0 &&
    match rest with
    | b1 :: _ => b1 &&& 0xC0 == 0x80
    | [] => false

/-- Embeds the three-byte guard `(ss[ii] & 0xF0) == 0xE0` with the two
continuation-byte checks. -/
def threeByteOK (b : Nat) (rest : List Nat) : Bool :=
  b &&& 0xF0 == 0xE0 &&
    match rest with
    | b1 :: b2 :: _ => b1 &&& 0xC0 == 0x80 && b2 &&& 0xC0 == 0x80
    | _ => false

/-- Records the outcome of one head of a loop iteration: the loop guard hit a
NUL byte, or one/two/three input bytes decoded to the code point `data`, or
the `something else: out of range` branch was taken. -/
inductive Utf8Step where
  | nulStop
  | one (data : Nat)
  | two (data : Nat)
  | three (data : Nat)
  | fail
  deriving DecidableEq

/-- Embeds the guard on `ss[ii]` plus the UTF-8 decoding if/else-if chain of
one iteration: `b` is `ss[ii]`, `rest` the bytes after it.  The data values
are computed exactly as in the source (`&`, `<<`, `+`).  The `fail` arms under
a successful guard are unreachable, since the guard forces the shape of
`rest`. -/
def utf8DecodeStep (b : Nat) (rest : List Nat) : Utf8Step :=
  if b = 0 then .nulStop
  else if b &&& 0x80 = 0 then .one b
  else if twoByteOK b rest then
    match rest with
    | b1 :: _ => .two (((b &&& 0x1F) <<< 6) + (b1 &&& 0x3F))
    | [] => .fail
  else if threeByteOK b rest then
    match rest with
    | b1 :: b2 :: _ => .three (((((b &&& 0x0F) <<< 6) + (b1 &&& 0x3F)) <<< 6) + (b2 &&& 0x3F))
    | _ => .fail
  else .fail

/-- Embeds only the UTF-8 decoding part of the loop: the list of decoded code
points, walking the input exactly as the C loop does (stop at end of input or
at a NUL byte, fail on the `something else` branch).  The arms that
re-destruct `rest` realize the advance of `ii` by the consumed count; their
`none` sub-arms are unreachable. -/
def decodeAll : List Nat → Option (List Nat)
  | [] => some []
  | b :: rest =>
    match utf8DecodeStep b rest with
    | .nulStop => some []
    | .one data => (decodeAll rest).map fun cps => data :: cps
    | .two data =>
      match rest with
      | _ :: rest1 => (decodeAll rest1).map fun cps => data :: cps
      | [] => none
    | .three data =>
      match rest with
      | _ :: _ :: rest2 => (decodeAll rest2).map fun cps => data :: cps
      | _ => none
    | .fail => none

/-- Embeds the full loop of `utf8_password_to_pdfdoc`: decode each code point
and classify it at once, collecting the emitted bytes; `none` is the -1
sentinel.  The length of the result is the returned count `ret_val`. -/
def convertLoop (encrypt_b : Bool) : List Nat → Option (List Nat)
  | [] => some []
  | b :: rest =>
    match utf8DecodeStep b rest with
    | .nulStop => some []
    | .one data =>
      match classify encrypt_b data with
      | none => none
      | some out => (convertLoop encrypt_b rest).map fun outs => out :: outs
    | .two data =>
      match rest with
      | _ :: rest1 =>
        match classify encrypt_b data with
        | none => none
        | some out => (convertLoop encrypt_b rest1).map fun outs => out :: outs
      | [] => none
    | .three data =>
      match rest with
      | _ :: _ :: rest2 =>
        match classify encrypt_b data with
        | none => none
        | some out => (convertLoop encrypt_b rest2).map fun outs => out :: outs
      | _ => none
    | .fail => none

/-- Maps `classify` over a list of code points, failing if any point fails:
the classification half of the loop, separated from the decoding half. -/
def classifyAll (encrypt_b : Bool) : List Nat → Option (List Nat)
  | [] => some []
  | cp :: cps =>
    match classify encrypt_b cp with
    | none => none
    | some out => (classifyAll encrypt_b cps).map fun outs => out :: outs

/-- Embeds the dry run (`bb` null): the returned integer only. -/
def utf8_password_to_pdfdoc_dry (encrypt_b : Bool) (ss : List Nat) : Int :=
  match convertLoop encrypt_b ss with
  | none => -1
  | some outs => (outs.length : Int)

/-- Embeds one store `bb[ k ]= v`: `jbyte` truncation is mod 256. -/
def writeByte (bb : Nat → Nat) (k : Nat) (v : Nat) : Nat → Nat :=
  fun i => if i = k then v % 256 else bb i

/-- Embeds the loop of the real run (`bb` non-null), threading the buffer and
`ret_val`; on failure the C code leaves any already-written prefix in the
buffer, as this embedding does. -/
def convertRealLoop (encrypt_b : Bool) :
    List Nat → (Nat → Nat) → Nat → Int × (Nat → Nat)
  | [], bb, ret_val => ((ret_val : Int), bb)
  | b :: rest, bb, ret_val =>
    match utf8DecodeStep b rest with
    | .nulStop => ((ret_val : Int), bb)
    | .one data =>
      match classify encrypt_b data with
      | none => (-1, bb)
      | some out => convertRealLoop encrypt_b rest (writeByte bb ret_val out) (ret_val + 1)
    | .two data =>
      match rest with
      | _ :: rest1 =>
        match classify encrypt_b data with
        | none => (-1, bb)
        | some out => convertRealLoop encrypt_b rest1 (writeByte bb ret_val out) (ret_val + 1)
      | [] => (-1, bb)
    | .three data =>
      match rest with
      | _ :: _ :: rest2 =>
        match classify encrypt_b data with
        | none => (-1, bb)
        | some out => convertRealLoop encrypt_b rest2 (writeByte bb ret_val out) (ret_val + 1)
      | _ => (-1, bb)
    | .fail => (-1, bb)

/-- Embeds `utf8_password_to_pdfdoc` with a non-null buffer `bb`: returns the
integer result and the final buffer contents. -/
def utf8_password_to_pdfdoc (encrypt_b : Bool) (ss : List Nat) (bb : Nat → Nat) :
    Int × (Nat → Nat) :=
  convertRealLoop encrypt_b ss bb 0

/-- Modelled from the spec: standard (RFC 3629) well-formedness of a UTF-8
byte sequence, the notion the spec means by malformed UTF-8, including the
shortest-form requirement; the repository contains no separate definition of
it, the claims refer to the standard notion. -/
def utf8WellFormed : List Nat → Bool
  | [] => true
  | b :: rest =>
    if b ≤ 0x7F then utf8WellFormed rest
    else if 0xC2 ≤ b ∧ b ≤ 0xDF then
      match rest with
      | b1 :: rest1 => (0x80 ≤ b1 && b1 ≤ 0xBF) && utf8WellFormed rest1
      | [] => false
    else if b = 0xE0 then
      match rest with
      | b1 :: b2 :: rest2 =>
          (0xA0 ≤ b1 && b1 ≤ 0xBF) && (0x80 ≤ b2 && b2 ≤ 0xBF) && utf8WellFormed rest2
      | _ => false
    else if 0xE1 ≤ b ∧ b ≤ 0xEC then
      match rest with
      | b1 :: b2 :: rest2 =>
          (0x80 ≤ b1 && b1 ≤ 0xBF) && (0x80 ≤ b2 && b2 ≤ 0xBF) && utf8WellFormed rest2
      | _ => false
    else if b = 0xED then
      match rest with
      | b1 :: b2 :: rest2 =>
          (0x80 ≤ b1 && b1 ≤ 0x9F) && (0x80 ≤ b2 && b2 ≤ 0xBF) && utf8WellFormed rest2
      | _ => false
    else if 0xEE ≤ b ∧ b ≤ 0xEF then
      match rest with
      | b1 :: b2 :: rest2 =>
          (0x80 ≤ b1 && b1 ≤ 0xBF) && (0x80 ≤ b2 && b2 ≤ 0xBF) && utf8WellFormed rest2
      | _ => false
    else if b = 0xF0 then
      match rest with
      | b1 :: b2 :: b3 :: rest3 =>
          (0x90 ≤ b1 && b1 ≤ 0xBF) && (0x80 ≤ b2 && b2 ≤ 0xBF) &&
          (0x80 ≤ b3 && b3 ≤ 0xBF) && utf8WellFormed rest3
      | _ => false
    else if 0xF1 ≤ b ∧ b ≤ 0xF3 then
      match rest with
      | b1 :: b2 :: b3 :: rest3 =>
          (0x80 ≤ b1 && b1 ≤ 0xBF) && (0x80 ≤ b2 && b2 ≤ 0xBF) &&
          (0x80 ≤ b3 && b3 ≤ 0xBF) && utf8WellFormed rest3
      | _ => false
    else if b = 0xF4 then
      match rest with
      | b1 :: b2 :: b3 :: rest3 =>
          (0x80 ≤ b1 && b1 ≤ 0x8F) && (0x80 ≤ b2 && b2 ≤ 0xBF) &&
          (0x80 ≤ b3 && b3 ≤ 0xBF) && utf8WellFormed rest3
      | _ => false
    else false

/-- Lists the eight always-remapped special code points named by the spec. -/
def strictSpecials : List Nat :=
  [0x0152, 0x0153, 0x0160, 0x0161, 0x0178, 0x017D, 0x017E, 0x0192]

theorem step_nulStop_iff (b : Nat) (rest : List Nat) :
    utf8DecodeStep b rest = .nulStop ↔ b = 0 := by
  unfold utf8DecodeStep
  split_ifs with h1 h2 h3 h4
  · simp [h1]
  · simp [h1]
  · cases rest <;> simp_all
  · cases rest with
    | nil => simp_all
    | cons b1 rest1 => cases rest1 <;> simp_all
  · simp [h1]

theorem step_one_elim (b : Nat) (rest : List Nat) (d : Nat)
    (h : utf8DecodeStep b rest = .one d) :
    b ≠ 0 ∧ b &&& 0x80 = 0 ∧ d = b := by
  unfold utf8DecodeStep at h
  split_ifs at h with h1 h2 h3 h4
  · simp_all
  · cases rest <;> simp_all
  · cases rest with
    | nil => simp_all
    | cons b1 rest1 => cases rest1 <;> simp_all

theorem step_two_shape (b : Nat) (rest : List Nat) (d : Nat)
    (h : utf8DecodeStep b rest = .two d) :
    ∃ b1 rest1, rest = b1 :: rest1 := by
  unfold utf8DecodeStep at h
  split_ifs at h with h1 h2 h3 h4
  · cases rest with
    | nil => simp_all
    | cons b1 rest1 => exact ⟨b1, rest1, rfl⟩
  · cases rest with
    | nil => simp_all
    | cons b1 rest1 => cases rest1 <;> simp_all

theorem step_three_shape (b : Nat) (rest : List Nat) (d : Nat)
    (h : utf8DecodeStep b rest = .three d) :
    ∃ b1 b2 rest2, rest = b1 :: b2 :: rest2 := by
  unfold utf8DecodeStep at h
  split_ifs at h with h1 h2 h3 h4
  · cases rest <;> simp_all
  · cases rest with
    | nil => simp_all
    | cons b1 rest1 =>
      cases rest1 with
      | nil => simp_all
      | cons b2 rest2 => exact ⟨b1, b2, rest2, rfl⟩

theorem step_one_append (b : Nat) (rest ys : List Nat) (d : Nat)
    (h : utf8DecodeStep b rest = .one d) :
    utf8DecodeStep b (rest ++ ys) = .one d := by
  obtain ⟨h1, h2, h3⟩ := step_one_elim b rest d h
  unfold utf8DecodeStep
  simp [h1, h2, h3]

theorem step_two_elim (b b1 : Nat) (rest1 : List Nat) (d : Nat)
    (h : utf8DecodeStep b (b1 :: rest1) = .two d) :
    b ≠ 0 ∧ b &&& 0x80 ≠ 0 ∧ twoByteOK b (b1 :: rest1) = true ∧
      d = ((b &&& 0x1F) <<< 6) + (b1 &&& 0x3F) := by
  unfold utf8DecodeStep at h
  split_ifs at h with h1 h2 h3 h4
  · exact ⟨h1, h2, h3, by simpa using h.symm⟩
  · cases rest1 <;> simp_all

theorem step_two_intro (b b1 : Nat) (rest1 : List Nat)
    (h0 : b ≠ 0) (h1 : b &&& 0x80 ≠ 0) (h2 : twoByteOK b (b1 :: rest1) = true) :
    utf8DecodeStep b (b1 :: rest1) = .two (((b &&& 0x1F) <<< 6) + (b1 &&& 0x3F)) := by
  unfold utf8DecodeStep
  simp [h0, h1, h2]

theorem step_two_append (b b1 : Nat) (rest1 ys : List Nat) (d : Nat)
    (h : utf8DecodeStep b (b1 :: rest1) = .two d) :
    utf8DecodeStep b (b1 :: (rest1 ++ ys)) = .two d := by
  obtain ⟨h0, h1, h2, h3⟩ := step_two_elim b b1 rest1 d h
  have h2a : twoByteOK b (b1 :: (rest1 ++ ys)) = true := by
    simpa [twoByteOK] using h2
  rw [h3]
  exact step_two_intro b b1 (rest1 ++ ys) h0 h1 h2a

theorem step_three_elim (b b1 b2 : Nat) (rest2 : List Nat) (d : Nat)
    (h : utf8DecodeStep b (b1 :: b2 :: rest2) = .three d) :
    b ≠ 0 ∧ b &&& 0x80 ≠ 0 ∧ twoByteOK b (b1 :: b2 :: rest2) = false ∧
      threeByteOK b (b1 :: b2 :: rest2) = true ∧
      d = ((((b &&& 0x0F) <<< 6) + (b1 &&& 0x3F)) <<< 6) + (b2 &&& 0x3F) := by
  unfold utf8DecodeStep at h
  split_ifs at h with h1 h2 h3 h4
  exact ⟨h1, h2, by simpa using h3, h4, by simpa using h.symm⟩

theorem step_three_intro (b b1 b2 : Nat) (rest2 : List Nat)
    (h0 : b ≠ 0) (h1 : b &&& 0x80 ≠ 0) (h2 : twoByteOK b (b1 :: b2 :: rest2) = false)
    (h3 : threeByteOK b (b1 :: b2 :: rest2) = true) :
    utf8DecodeStep b (b1 :: b2 :: rest2) =
      .three (((((b &&& 0x0F) <<< 6) + (b1 &&& 0x3F)) <<< 6) + (b2 &&& 0x3F)) := by
  unfold utf8DecodeStep
  simp [h0, h1, h2, h3]

theorem step_three_append (b b1 b2 : Nat) (rest2 ys : List Nat) (d : Nat)
    (h : utf8DecodeStep b (b1 :: b2 :: rest2) = .three d) :
    utf8DecodeStep b (b1 :: b2 :: (rest2 ++ ys)) = .three d := by
  obtain ⟨h0, h1, h2, h3, h4⟩ := step_three_elim b b1 b2 rest2 d h
  have h2a : twoByteOK b (b1 :: b2 :: (rest2 ++ ys)) = false := by
    simpa [twoByteOK] using h2
  have h3a : threeByteOK b (b1 :: b2 :: (rest2 ++ ys)) = true := by
    simpa [threeByteOK] using h3
  rw [h4]
  exact step_three_intro b b1 b2 (rest2 ++ ys) h0 h1 h2a h3a

theorem step_zero_append (b : Nat) (rest post : List Nat) :
    utf8DecodeStep b (rest ++ 0 :: post) = utf8DecodeStep b rest := by
  cases rest with
  | nil =>
    cases post <;> simp [utf8DecodeStep, twoByteOK, threeByteOK]
  | cons b1 rest1 =>
    cases rest1 with
    | nil => simp [utf8DecodeStep, twoByteOK, threeByteOK]
    | cons b2 rest2 => simp [utf8DecodeStep, twoByteOK, threeByteOK]

theorem step_fail_of (b : Nat) (rest : List Nat)
    (h0 : b ≠ 0) (h1 : b &&& 0x80 ≠ 0)
    (h2 : twoByteOK b rest = false) (h3 : threeByteOK b rest = false) :
    utf8DecodeStep b rest = .fail := by
  unfold utf8DecodeStep
  simp [h0, h1, h2, h3]

theorem convertLoop_eq (e : Bool) (ss : List Nat) :
    convertLoop e ss = (decodeAll ss).bind (classifyAll e) := by
  induction ss using decodeAll.induct with
  | case1 => rfl
  | case2 b rest hstep => simp only [convertLoop, decodeAll, hstep]; rfl
  | case3 b rest data hstep ih =>
      simp only [convertLoop, decodeAll, hstep]
      cases hc : classify e data <;> cases hd : decodeAll rest <;>
        simp [classifyAll, hc, hd, ih]
  | case4 b data b1 tail hstep ih =>
      simp only [convertLoop, decodeAll, hstep]
      cases hc : classify e data <;> cases hd : decodeAll tail <;>
        simp [classifyAll, hc, hd, ih]
  | case5 b data hstep =>
      obtain ⟨b1, rest1, hr⟩ := step_two_shape b [] data hstep
      exact absurd hr (by simp)
  | case6 b data b1 b2 tail hstep ih =>
      simp only [convertLoop, decodeAll, hstep]
      cases hc : classify e data <;> cases hd : decodeAll tail <;>
        simp [classifyAll, hc, hd, ih]
  | case7 b rest data hstep hshape =>
      obtain ⟨b1, b2, t, hr⟩ := step_three_shape b rest data hstep
      exact (hshape b1 b2 t hr).elim
  | case8 b rest hstep => simp only [convertLoop, decodeAll, hstep]; rfl

theorem classify_strict_big (d : Nat) (hd : 0x200 ≤ d) : classify true d = none := by
  unfold classify
  repeat rw [if_neg (by omega)]
  rfl

set_option maxRecDepth 100000 in
theorem classify_mono_small : ∀ d, d < 0x200 → (classify true d).isSome = true →
    classify false d = classify true d := by decide

theorem classify_mono (d out : Nat) (h : classify true d = some out) :
    classify false d = some out := by
  by_cases hd : d < 0x200
  · rw [classify_mono_small d hd (by simp [h]), h]
  · rw [classify_strict_big d (by omega)] at h
    exact absurd h (by simp)

theorem classifyAll_mono (cps outs : List Nat)
    (h : classifyAll true cps = some outs) : classifyAll false cps = some outs := by
  induction cps generalizing outs with
  | nil => simpa using h
  | cons cp cps ih =>
      simp only [classifyAll] at h ⊢
      cases hc : classify true cp with
      | none => rw [hc] at h; exact absurd h (by simp)
      | some out =>
          rw [hc] at h
          rw [classify_mono cp out hc]
          cases hrec : classifyAll true cps with
          | none => rw [hrec] at h; exact absurd h (by simp)
          | some outs2 => rw [ih outs2 hrec]; rw [hrec] at h; exact h

theorem classifyAll_none_of_mem (e : Bool) (cp : Nat) (cps : List Nat)
    (hmem : cp ∈ cps) (hc : classify e cp = none) : classifyAll e cps = none := by
  induction cps with
  | nil => simp at hmem
  | cons c cs ih =>
      rcases List.mem_cons.mp hmem with h | h
      · subst h; simp [classifyAll, hc]
      · simp only [classifyAll]
        cases hcc : classify e c with
        | none => rfl
        | some out => rw [ih h]; rfl

theorem reject_of_mem (e : Bool) (ss cps : List Nat) (cp : Nat)
    (hd : decodeAll ss = some cps) (hmem : cp ∈ cps) (hc : classify e cp = none) :
    utf8_password_to_pdfdoc_dry e ss = -1 := by
  unfold utf8_password_to_pdfdoc_dry
  rw [convertLoop_eq, hd]
  simp [classifyAll_none_of_mem e cp cps hmem hc]

theorem classifyAll_isSome (e : Bool) (cps : List Nat)
    (h : ∀ cp ∈ cps, (classify e cp).isSome) : ∃ outs, classifyAll e cps = some outs := by
  induction cps with
  | nil => exact ⟨[], rfl⟩
  | cons c cs ih =>
      obtain ⟨outs, houts⟩ := ih fun cp hcp => h cp (List.mem_cons_of_mem c hcp)
      have hc := h c (List.mem_cons_self c cs)
      cases hcc : classify e c with
      | none => rw [hcc] at hc; simp at hc
      | some out => exact ⟨out :: outs, by simp [classifyAll, hcc, houts]⟩

theorem classifyAll_spec (e : Bool) (cps outs : List Nat)
    (h : classifyAll e cps = some outs) :
    outs.length = cps.length ∧
      ∀ i, i < cps.length → classify e (cps.getD i 0) = some (outs.getD i 0) := by
  induction cps generalizing outs with
  | nil =>
      simp only [classifyAll] at h
      cases h; simp
  | cons c cs ih =>
      simp only [classifyAll] at h
      cases hcc : classify e c with
      | none => rw [hcc] at h; exact absurd h (by simp)
      | some out =>
          rw [hcc] at h
          cases hrec : classifyAll e cs with
          | none => rw [hrec] at h; exact absurd h (by simp)
          | some outs2 =>
              rw [hrec] at h
              simp only [Option.map_some] at h
              obtain ⟨hlen, hidx⟩ := ih outs2 hrec
              cases h
              refine ⟨by simp [hlen], ?_⟩
              intro i hi
              cases i with
              | zero => simpa using hcc
              | succ j =>
                  simp only [List.getD_cons_succ]
                  exact hidx j (by simpa using hi)

theorem decodeAll_append (good ys cps : List Nat)
    (h0 : ∀ x ∈ good, x ≠ 0) (h : decodeAll good = some cps) :
    decodeAll (good ++ ys) = (decodeAll ys).map fun more => cps ++ more := by
  induction good using decodeAll.induct generalizing cps with
  | case1 =>
      simp only [decodeAll] at h
      cases h
      simp
  | case2 b rest hstep =>
      have hb := (step_nulStop_iff b rest).mp hstep
      exact absurd hb (h0 b (List.mem_cons_self b rest))
  | case3 b rest data hstep ih =>
      simp only [decodeAll, hstep] at h
      cases hd : decodeAll rest with
      | none => rw [hd] at h; exact absurd h (by simp)
      | some cps2 =>
          rw [hd] at h
          simp only [Option.map_some'] at h
          have hstep2 := step_one_append b rest ys data hstep
          rw [List.cons_append]
          simp only [decodeAll, hstep2]
          rw [ih cps2 (fun x hx => h0 x (List.mem_cons_of_mem b hx)) hd]
          cases h
          simp only [Option.map_map]
          rfl
  | case4 b data b1 tail hstep ih =>
      simp only [decodeAll, hstep] at h
      cases hd : decodeAll tail with
      | none => rw [hd] at h; exact absurd h (by simp)
      | some cps2 =>
          rw [hd] at h
          simp only [Option.map_some'] at h
          have hstep2 := step_two_append b b1 tail ys data hstep
          rw [List.cons_append, List.cons_append]
          simp only [decodeAll, hstep2]
          rw [ih cps2 (fun x hx => h0 x (List.mem_cons_of_mem b (List.mem_cons_of_mem b1 hx))) hd]
          cases h
          simp only [Option.map_map]
          rfl
  | case5 b data hstep =>
      obtain ⟨b1, rest1, hr⟩ := step_two_shape b [] data hstep
      exact absurd hr (by simp)
  | case6 b data b1 b2 tail hstep ih =>
      simp only [decodeAll, hstep] at h
      cases hd : decodeAll tail with
      | none => rw [hd] at h; exact absurd h (by simp)
      | some cps2 =>
          rw [hd] at h
          simp only [Option.map_some'] at h
          have hstep2 := step_three_append b b1 b2 tail ys data hstep
          rw [List.cons_append, List.cons_append, List.cons_append]
          simp only [decodeAll, hstep2]
          rw [ih cps2 (fun x hx => h0 x (List.mem_cons_of_mem b
                (List.mem_cons_of_mem b1 (List.mem_cons_of_mem b2 hx)))) hd]
          cases h
          simp only [Option.map_map]
          rfl
  | case7 b rest data hstep hshape =>
      obtain ⟨b1, b2, t, hr⟩ := step_three_shape b rest data hstep
      exact (hshape b1 b2 t hr).elim
  | case8 b rest hstep =>
      simp only [decodeAll, hstep] at h
      exact absurd h (by simp)

theorem decodeAll_nul (pre post : List Nat) (h0 : ∀ x ∈ pre, x ≠ 0) :
    decodeAll (pre ++ 0 :: post) = decodeAll pre := by
  induction pre using decodeAll.induct with
  | case1 =>
      simp only [List.nil_append]
      simp [decodeAll, utf8DecodeStep]
  | case2 b rest hstep =>
      have hb := (step_nulStop_iff b rest).mp hstep
      exact absurd hb (h0 b (List.mem_cons_self b rest))
  | case3 b rest data hstep ih =>
      have hstep2 : utf8DecodeStep b (rest ++ 0 :: post) = .one data := by
        rw [step_zero_append, hstep]
      rw [List.cons_append]
      simp only [decodeAll, hstep2, hstep]
      rw [ih fun x hx => h0 x (List.mem_cons_of_mem b hx)]
  | case4 b data b1 tail hstep ih =>
      have hstep2 : utf8DecodeStep b (b1 :: (tail ++ 0 :: post)) = .two data := by
        have := step_zero_append b (b1 :: tail) post
        rw [hstep] at this
        simpa using this
      rw [List.cons_append, List.cons_append]
      simp only [decodeAll, hstep2, hstep]
      rw [ih fun x hx => h0 x (List.mem_cons_of_mem b (List.mem_cons_of_mem b1 hx))]
  | case5 b data hstep =>
      obtain ⟨b1, rest1, hr⟩ := step_two_shape b [] data hstep
      exact absurd hr (by simp)
  | case6 b data b1 b2 tail hstep ih =>
      have hstep2 : utf8DecodeStep b (b1 :: b2 :: (tail ++ 0 :: post)) = .three data := by
        have := step_zero_append b (b1 :: b2 :: tail) post
        rw [hstep] at this
        simpa using this
      rw [List.cons_append, List.cons_append, List.cons_append]
      simp only [decodeAll, hstep2, hstep]
      rw [ih fun x hx => h0 x (List.mem_cons_of_mem b
            (List.mem_cons_of_mem b1 (List.mem_cons_of_mem b2 hx)))]
  | case7 b rest data hstep hshape =>
      obtain ⟨b1, b2, t, hr⟩ := step_three_shape b rest data hstep
      exact (hshape b1 b2 t hr).elim
  | case8 b rest hstep =>
      have hstep2 : utf8DecodeStep b (rest ++ 0 :: post) = .fail := by
        rw [step_zero_append, hstep]
      rw [List.cons_append]
      simp only [decodeAll, hstep2, hstep]

theorem convertRealLoop_fst (e : Bool) (ss : List Nat) (bb : Nat → Nat) (ret : Nat) :
    (convertRealLoop e ss bb ret).1 =
      match convertLoop e ss with
      | none => -1
      | some outs => ((ret + outs.length : Nat) : Int) := by
  induction ss, bb, ret using convertRealLoop.induct e with
  | case1 bb ret => simp [convertRealLoop, convertLoop]
  | case2 b rest bb ret hstep =>
      simp only [convertRealLoop, convertLoop, hstep]
      simp
  | case3 b rest bb ret data hstep hc =>
      simp only [convertRealLoop, convertLoop, hstep, hc]
  | case4 b rest bb ret data hstep out hc ih =>
      simp only [convertRealLoop, convertLoop, hstep, hc]
      rw [ih]
      cases hcl : convertLoop e rest with
      | none => simp
      | some outs2 => simp; ring
  | case5 b bb ret data b1 tail hc hstep =>
      simp only [convertRealLoop, convertLoop, hstep, hc]
  | case6 b bb ret data b1 tail out hc hstep ih =>
      simp only [convertRealLoop, convertLoop, hstep, hc]
      rw [ih]
      cases hcl : convertLoop e tail with
      | none => simp
      | some outs2 => simp; ring
  | case7 b bb ret data hstep =>
      obtain ⟨b1, rest1, hr⟩ := step_two_shape b [] data hstep
      exact absurd hr (by simp)
  | case8 b bb ret data b1 b2 tail hc hstep =>
      simp only [convertRealLoop, convertLoop, hstep, hc]
  | case9 b bb ret data b1 b2 tail out hc hstep ih =>
      simp only [convertRealLoop, convertLoop, hstep, hc]
      rw [ih]
      cases hcl : convertLoop e tail with
      | none => simp
      | some outs2 => simp; ring
  | case10 b rest bb ret data hstep hshape =>
      obtain ⟨b1, b2, t, hr⟩ := step_three_shape b rest data hstep
      exact (hshape b1 b2 t hr).elim
  | case11 b rest bb ret hstep =>
      simp only [convertRealLoop, convertLoop, hstep]

theorem writeBuf_step (bb : Nat → Nat) (ret out : Nat) (outs2 : List Nat) :
    (fun i => if ret + 1 ≤ i ∧ i < ret + 1 + outs2.length
              then outs2.getD (i - (ret + 1)) 0 % 256
              else writeByte bb ret out i)
      = fun i => if ret ≤ i ∧ i < ret + (out :: outs2).length
                 then (out :: outs2).getD (i - ret) 0 % 256
                 else bb i := by
  funext i
  by_cases h1 : i = ret
  · subst h1
    rw [if_neg (by omega), if_pos (by simp only [List.length_cons]; omega)]
    simp [writeByte]
  · by_cases h2 : ret + 1 ≤ i ∧ i < ret + 1 + outs2.length
    · rw [if_pos h2, if_pos (by simp only [List.length_cons]; omega)]
      have h3 : i - ret = (i - (ret + 1)) + 1 := by omega
      rw [h3, List.getD_cons_succ]
    · rw [if_neg h2, if_neg (by simp only [List.length_cons]; omega)]
      simp [writeByte, h1]

theorem convertRealLoop_snd (e : Bool) (ss : List Nat) (bb : Nat → Nat) (ret : Nat)
    (outs : List Nat) (h : convertLoop e ss = some outs) :
    (convertRealLoop e ss bb ret).2 =
      fun i => if ret ≤ i ∧ i < ret + outs.length
               then outs.getD (i - ret) 0 % 256 else bb i := by
  induction ss, bb, ret using convertRealLoop.induct e generalizing outs with
  | case1 bb ret =>
      simp only [convertLoop] at h
      cases h
      simp only [convertRealLoop]
      funext i
      rw [if_neg (by simp)]
  | case2 b rest bb ret hstep =>
      simp only [convertLoop, hstep] at h
      cases h
      simp only [convertRealLoop, hstep]
      funext i
      rw [if_neg (by simp)]
  | case3 b rest bb ret data hstep hc =>
      simp only [convertLoop, hstep, hc] at h
      exact absurd h (by simp)
  | case4 b rest bb ret data hstep out hc ih =>
      simp only [convertLoop, hstep, hc] at h
      cases hcl : convertLoop e rest with
      | none => rw [hcl] at h; exact absurd h (by simp)
      | some outs2 =>
          rw [hcl] at h
          simp only [Option.map_some'] at h
          cases h
          simp only [convertRealLoop, hstep, hc]
          rw [ih outs2 hcl]
          exact writeBuf_step bb ret out outs2
  | case5 b bb ret data b1 tail hc hstep =>
      simp only [convertLoop, hstep, hc] at h
      exact absurd h (by simp)
  | case6 b bb ret data b1 tail out hc hstep ih =>
      simp only [convertLoop, hstep, hc] at h
      cases hcl : convertLoop e tail with
      | none => rw [hcl] at h; exact absurd h (by simp)
      | some outs2 =>
          rw [hcl] at h
          simp only [Option.map_some'] at h
          cases h
          simp only [convertRealLoop, hstep, hc]
          rw [ih outs2 hcl]
          exact writeBuf_step bb ret out outs2
  | case7 b bb ret data hstep =>
      obtain ⟨b1, rest1, hr⟩ := step_two_shape b [] data hstep
      exact absurd hr (by simp)
  | case8 b bb ret data b1 b2 tail hc hstep =>
      simp only [convertLoop, hstep, hc] at h
      exact absurd h (by simp)
  | case9 b bb ret data b1 b2 tail out hc hstep ih =>
      simp only [convertLoop, hstep, hc] at h
      cases hcl : convertLoop e tail with
      | none => rw [hcl] at h; exact absurd h (by simp)
      | some outs2 =>
          rw [hcl] at h
          simp only [Option.map_some'] at h
          cases h
          simp only [convertRealLoop, hstep, hc]
          rw [ih outs2 hcl]
          exact writeBuf_step bb ret out outs2
  | case10 b rest bb ret data hstep hshape =>
      obtain ⟨b1, b2, t, hr⟩ := step_three_shape b rest data hstep
      exact (hshape b1 b2 t hr).elim
  | case11 b rest bb ret hstep =>
      simp only [convertLoop, hstep] at h
      exact absurd h (by simp)

theorem classifyAll_none_exists (e : Bool) (cps : List Nat)
    (h : classifyAll e cps = none) : ∃ cp ∈ cps, classify e cp = none := by
  induction cps with
  | nil => simp [classifyAll] at h
  | cons c cs ih =>
      simp only [classifyAll] at h
      cases hcc : classify e c with
      | none => exact ⟨c, List.mem_cons_self c cs, hcc⟩
      | some out =>
          rw [hcc] at h
          cases hrec : classifyAll e cs with
          | none =>
              obtain ⟨cp, hmem, hcp⟩ := ih hrec
              exact ⟨cp, List.mem_cons_of_mem c hmem, hcp⟩
          | some outs2 => rw [hrec] at h; exact absurd h (by simp)

theorem convertLoop_mono (ss outs : List Nat)
    (h : convertLoop true ss = some outs) : convertLoop false ss = some outs := by
  rw [convertLoop_eq] at h ⊢
  cases hd : decodeAll ss with
  | none => rw [hd] at h; exact absurd h (by simp)
  | some cps =>
      rw [hd] at h
      simp only [Option.some_bind] at h ⊢
      exact classifyAll_mono cps outs h

/-- C1, counterexample: the two-byte sequence C1 A0 is malformed UTF-8 (an
overlong, non-shortest-form encoding of 0x60), yet the codec decodes it to
0x60 and accepts it in both modes, returning 1 rather than -1. -/
theorem c1_counterexample :
    utf8WellFormed [0xC1, 0xA0] = false ∧
    utf8_password_to_pdfdoc_dry true [0xC1, 0xA0] = 1 ∧
    utf8_password_to_pdfdoc_dry false [0xC1, 0xA0] = 1 :=
  ⟨by decide, by decide, by decide⟩

/-- C1, amended: the call returns -1 exactly when the decoder as implemented
fails (a lead byte matching none of the three patterns, or a bad or missing
continuation byte, before the first NUL), or some decoded code point is not
representable under the active mode.  Shortest-form is not checked, and
bytes from the first NUL on are not examined. -/
theorem c1_amended (e : Bool) (ss : List Nat) :
    utf8_password_to_pdfdoc_dry e ss = -1 ↔
      (decodeAll ss = none ∨
        ∃ cps, decodeAll ss = some cps ∧ ∃ cp ∈ cps, classify e cp = none) := by
  unfold utf8_password_to_pdfdoc_dry
  rw [convertLoop_eq]
  cases hd : decodeAll ss with
  | none => simp
  | some cps =>
      simp only [Option.some_bind]
      cases hca : classifyAll e cps with
      | none =>
          exact ⟨fun _ => Or.inr ⟨cps, rfl, classifyAll_none_exists e cps hca⟩,
                 fun _ => rfl⟩
      | some outs =>
          constructor
          · intro habs
            have habs2 : (outs.length : Int) = -1 := habs
            omega
          · rintro (habs | ⟨cps2, hcps2, cp, hmem, hcp⟩)
            · exact absurd habs (by simp)
            · cases hcps2
              rw [classifyAll_none_of_mem e cp cps hmem hcp] at hca
              exact absurd hca (by simp)

set_option maxRecDepth 100000 in
theorem classify_strict_small : ∀ d, d < 0x200 →
    (((classify true d).isSome ↔
        ((0x20 ≤ d ∧ d < 0x7F) ∨ (0xA0 ≤ d ∧ d ≤ 0xFF) ∨ d ∈ strictSpecials)) ∧
      (d ∈ strictSpecials →
        (classify true d).isSome ∧
        0x80 ≤ (classify true d).getD 0 ∧ (classify true d).getD 0 ≤ 0x9F)) := by
  decide

/-- C2: in Strict mode a decoded code point is accepted exactly when it is
directly representable (0x20 <= cp < 0x7F or 0xA0 <= cp <= 0xFF) or one of
the eight always-remapped special points; each special point is emitted as a
single byte in 0x80..0x9F; and an input decoding to any other code point
makes the whole call return -1. -/
theorem c2_strict_acceptance (data : Nat) :
    ((classify true data).isSome ↔
        ((0x20 ≤ data ∧ data < 0x7F) ∨ (0xA0 ≤ data ∧ data ≤ 0xFF) ∨
          data ∈ strictSpecials)) ∧
    (data ∈ strictSpecials →
        (classify true data).isSome ∧
        0x80 ≤ (classify true data).getD 0 ∧ (classify true data).getD 0 ≤ 0x9F) ∧
    (classify true data = none →
        ∀ ss cps, decodeAll ss = some cps → data ∈ cps →
          utf8_password_to_pdfdoc_dry true ss = -1) := by
  have hsmall := classify_strict_small
  refine ⟨?_, ?_, ?_⟩
  · by_cases hd : data < 0x200
    · exact (hsmall data hd).1
    · rw [classify_strict_big data (by omega)]
      simp only [Option.isSome_none, Bool.false_eq_true, false_iff]
      rintro (h | h | h)
      · omega
      · omega
      · simp only [strictSpecials, List.mem_cons, List.not_mem_nil, or_false] at h
        omega
  · intro hmem
    have hd : data < 0x200 := by
      simp only [strictSpecials, List.mem_cons, List.not_mem_nil, or_false] at hmem
      omega
    exact (hsmall data hd).2 hmem
  · intro hc ss cps hd hmem
    exact reject_of_mem true ss cps data hd hmem hc

/-- C2, witness at U+0152. -/
theorem c2_strict_acceptance_witness :
    (classify true 0x0152).isSome ∧
      0x80 ≤ (classify true 0x0152).getD 0 ∧ (classify true 0x0152).getD 0 ≤ 0x9F :=
  (c2_strict_acceptance 0x0152).2.1 (by decide)

/-- C3: whenever Strict mode accepts an input (returns a count n >= 0),
Permissive mode returns the same count on that input. -/
theorem c3_strict_subset_permissive (ss : List Nat) (n : Int)
    (h : utf8_password_to_pdfdoc_dry true ss = n) (hn : 0 ≤ n) :
    utf8_password_to_pdfdoc_dry false ss = n := by
  unfold utf8_password_to_pdfdoc_dry at h ⊢
  cases hcl : convertLoop true ss with
  | none => rw [hcl] at h; simp only at h; omega
  | some outs =>
      rw [hcl] at h
      rw [convertLoop_mono ss outs hcl]
      exact h

/-- C3, witness at the one-character input a. -/
theorem c3_strict_subset_permissive_witness :
    utf8_password_to_pdfdoc_dry false [0x61] = 1 :=
  c3_strict_subset_permissive [0x61] 1 (by decide) (by decide)

/-- C4: every code point in 0x20..0x7E or 0xA0..0xFF is classified, in both
modes, as itself: the emitted byte equals the code point unchanged. -/
theorem c4_direct_ranges (e : Bool) (data : Nat)
    (h : (0x20 ≤ data ∧ data ≤ 0x7E) ∨ (0xA0 ≤ data ∧ data ≤ 0xFF)) :
    classify e data = some data := by
  unfold classify
  rw [if_pos (by omega)]

/-- C4, witness at 0x41 in Strict mode and 0xE9 in Permissive mode. -/
theorem c4_direct_ranges_witness :
    classify true 0x41 = some 0x41 ∧ classify false 0xE9 = some 0xE9 :=
  ⟨c4_direct_ranges true 0x41 (by decide), c4_direct_ranges false 0xE9 (by decide)⟩

/-- C5: after any cleanly convertible NUL-free prefix, a byte that matches
none of the one-, two- or three-byte patterns (equivalently, whose
continuation-byte checks fail) makes the whole call return -1, in either
mode, regardless of what follows. -/
theorem c5_decode_failure_rejects (e : Bool) (good : List Nat) (b : Nat) (rest : List Nat)
    (h0 : ∀ x ∈ good, x ≠ 0)
    (hgood : (convertLoop e good).isSome = true)
    (hb : b ≠ 0) (h1 : b &&& 0x80 ≠ 0)
    (h2 : twoByteOK b rest = false) (h3 : threeByteOK b rest = false) :
    utf8_password_to_pdfdoc_dry e (good ++ b :: rest) = -1 := by
  rw [Option.isSome_iff_exists] at hgood
  obtain ⟨outs, houts⟩ := hgood
  rw [convertLoop_eq] at houts
  cases hd : decodeAll good with
  | none => rw [hd] at houts; exact absurd houts (by simp)
  | some cps =>
      have hbad : decodeAll (b :: rest) = none := by
        simp only [decodeAll, step_fail_of b rest hb h1 h2 h3]
      have happ := decodeAll_append good (b :: rest) cps h0 hd
      unfold utf8_password_to_pdfdoc_dry
      rw [convertLoop_eq, happ, hbad]
      rfl

/-- C5, witness: a then a lone four-byte lead F0. -/
theorem c5_decode_failure_rejects_witness :
    utf8_password_to_pdfdoc_dry true ([0x61] ++ 0xF0 :: []) = -1 :=
  c5_decode_failure_rejects true [0x61] 0xF0 []
    (by decide) (by decide) (by decide) (by decide) (by decide) (by decide)

set_option maxRecDepth 100000 in
theorem classify_permissive_table : ∀ cp, cp < 0x200 → 0x100 ≤ cp →
    (classify false cp).isSome = true ∧
    (cp ∉ strictSpecials →
      classify false cp = some (unicode_latin_extended_windows_map.getD (cp - 0x100) 0)) := by
  decide

/-- C6, counterexample: U+0160 (Scaron) lies in 0x100..0x1FF, but in
Permissive mode it is emitted as the always-remapped byte 0227 octal from
the first switch, not as the table entry 0x8A at offset 0x60; so not every
point of the range is emitted as its table entry. -/
theorem c6_counterexample :
    classify false 0x160 = some 0o227 ∧
    unicode_latin_extended_windows_map.getD (0x160 - 0x100) 0 = 0x8A ∧
    (0o227 : Nat) ≠ 0x8A :=
  ⟨by decide, by decide, by decide⟩

set_option maxRecDepth 100000 in
/-- C6, amended: the remap table has exactly 256 entries; in Permissive mode
every code point in 0x100..0x1FF is accepted (never -1), and every such
point other than the eight always-remapped specials is emitted as the byte
at table offset cp - 0x100 (the specials take the byte from the first
switch instead); U+0100 maps to the byte for A; and in Strict mode any
input whose decoding contains U+0100 returns -1. -/
theorem c6_table_total :
    unicode_latin_extended_windows_map.length = 256 ∧
    (∀ cp, 0x100 ≤ cp → cp ≤ 0x1FF → (classify false cp).isSome = true) ∧
    (∀ cp, 0x100 ≤ cp → cp ≤ 0x1FF → cp ∉ strictSpecials →
        classify false cp = some (unicode_latin_extended_windows_map.getD (cp - 0x100) 0)) ∧
    classify false 0x100 = some 0x41 ∧
    (∀ ss cps, decodeAll ss = some cps → 0x100 ∈ cps →
        utf8_password_to_pdfdoc_dry true ss = -1) ∧
    convertLoop false [0xC4, 0x80] = some [0x41] := by
  refine ⟨by decide, ?_, ?_, by decide, ?_, by decide⟩
  · intro cp h1 h2
    exact (classify_permissive_table cp (by omega) h1).1
  · intro cp h1 h2 h3
    exact (classify_permissive_table cp (by omega) h1).2 h3
  · intro ss cps hd hmem
    exact reject_of_mem true ss cps 0x100 hd hmem (by decide)

/-- C6, witness at U+0180. -/
theorem c6_table_total_witness :
    classify false 0x180 = some (unicode_latin_extended_windows_map.getD (0x180 - 0x100) 0) :=
  c6_table_total.2.2.1 0x180 (by decide) (by decide) (by decide)

/-- C7: with a buffer the call returns the same integer as the dry run, and
on success it writes exactly the output bytes at indices 0..n-1, leaving
every index at or beyond n unchanged. -/
theorem c7_dry_real_agree (e : Bool) (ss : List Nat) (bb : Nat → Nat) :
    (utf8_password_to_pdfdoc e ss bb).1 = utf8_password_to_pdfdoc_dry e ss ∧
    (∀ outs, convertLoop e ss = some outs →
      (utf8_password_to_pdfdoc e ss bb).2 =
        fun i => if i < outs.length then outs.getD i 0 % 256 else bb i) := by
  constructor
  · unfold utf8_password_to_pdfdoc utf8_password_to_pdfdoc_dry
    rw [convertRealLoop_fst]
    cases convertLoop e ss <;> simp
  · intro outs h
    unfold utf8_password_to_pdfdoc
    rw [convertRealLoop_snd e ss bb 0 outs h]
    funext i
    simp

/-- C7, witness on the input a C4 80 with an all-zero initial buffer. -/
theorem c7_dry_real_agree_witness :
    (utf8_password_to_pdfdoc false [0x61, 0xC4, 0x80] fun _ => 0).2 =
      fun i => if i < ([0x61, 0x41] : List Nat).length
               then ([0x61, 0x41] : List Nat).getD i 0 % 256
               else (fun _ => 0 : Nat → Nat) i :=
  (c7_dry_real_agree false [0x61, 0xC4, 0x80] fun _ => 0).2 [0x61, 0x41] (by decide)

/-- C8: an input whose decoding contains U+2014 returns -1 in Strict mode;
in Permissive mode, when every decoded point is acceptable, the call
succeeds with one byte per code point and emits 0x84 (0204 octal) at every
position holding U+2014. -/
theorem c8_emdash (ss cps : List Nat)
    (hd : decodeAll ss = some cps) (hmem : 0x2014 ∈ cps) :
    utf8_password_to_pdfdoc_dry true ss = -1 ∧
    ((∀ cp ∈ cps, (classify false cp).isSome) →
      ∃ outs, convertLoop false ss = some outs ∧
        utf8_password_to_pdfdoc_dry false ss = (outs.length : Int) ∧
        outs.length = cps.length ∧
        ∀ i, i < cps.length → cps.getD i 0 = 0x2014 → outs.getD i 0 = 0x84) := by
  constructor
  · exact reject_of_mem true ss cps 0x2014 hd hmem (by decide)
  · intro hall
    obtain ⟨outs, houts⟩ := classifyAll_isSome false cps hall
    have hcl : convertLoop false ss = some outs := by
      rw [convertLoop_eq, hd]
      simpa using houts
    obtain ⟨hlen, hidx⟩ := classifyAll_spec false cps outs houts
    refine ⟨outs, hcl, ?_, hlen, ?_⟩
    · unfold utf8_password_to_pdfdoc_dry
      rw [hcl]
    · intro i hi hcp
      have hval := hidx i hi
      rw [hcp] at hval
      have h84 : classify false 0x2014 = some 0x84 := by decide
      rw [h84] at hval
      exact (Option.some_inj.mp hval).symm

/-- C8, witness on the input a followed by the three-byte encoding of the
em-dash. -/
theorem c8_emdash_witness :
    utf8_password_to_pdfdoc_dry true [0x61, 0xE2, 0x80, 0x94] = -1 :=
  (c8_emdash [0x61, 0xE2, 0x80, 0x94] [0x61, 0x2014] (by decide) (by decide)).1

/-- C9, counterexample: an embedded NUL terminates processing early.  On the
input 41 00 01 both modes return 1, ignoring the byte 0x01 entirely, even
though 0x01 is rejected whenever it is actually processed (41 01 gives -1);
so the result is not determined by every byte position up to the supplied
length, and a NUL is a terminator, not an ordinary code point. -/
theorem c9_counterexample :
    utf8_password_to_pdfdoc_dry true [0x41, 0x00, 0x01] = 1 ∧
    utf8_password_to_pdfdoc_dry false [0x41, 0x00, 0x01] = 1 ∧
    utf8_password_to_pdfdoc_dry true [0x41, 0x01] = -1 ∧
    utf8_password_to_pdfdoc_dry false [0x41, 0x01] = -1 :=
  ⟨by decide, by decide, by decide, by decide⟩

/-- C9, amended: the call processes the input only up to the first NUL byte
or the supplied length, whichever comes first: with a NUL-free prefix, the
result on prefix ++ 0x00 :: anything equals the result on the prefix
alone. -/
theorem c9_amended (e : Bool) (pre post : List Nat) (h0 : ∀ x ∈ pre, x ≠ 0) :
    utf8_password_to_pdfdoc_dry e (pre ++ 0 :: post) = utf8_password_to_pdfdoc_dry e pre := by
  unfold utf8_password_to_pdfdoc_dry
  rw [convertLoop_eq, convertLoop_eq, decodeAll_nul pre post h0]

/-- C9, witness with prefix 41 and trailing byte 01. -/
theorem c9_amended_witness :
    utf8_password_to_pdfdoc_dry true ([0x41] ++ 0 :: [0x01]) =
      utf8_password_to_pdfdoc_dry true [0x41] :=
  c9_amended true [0x41] [0x01] (by decide)

set_option maxRecDepth 100000 in
theorem classify_control_none : ∀ d, d < 0xA0 →
    ((1 ≤ d ∧ d ≤ 0x1F) ∨ (0x7F ≤ d ∧ d ≤ 0x9F)) →
    classify true d = none ∧ classify false d = none := by
  decide

/-- C10: every code point in the control ranges 0x01..0x1F and 0x7F..0x9F is
rejected by the classification in both modes, and any input whose decoding
contains such a point returns -1. -/
theorem c10_control_rejected (e : Bool) (cp : Nat)
    (h : (1 ≤ cp ∧ cp ≤ 0x1F) ∨ (0x7F ≤ cp ∧ cp ≤ 0x9F)) :
    classify e cp = none ∧
    ∀ ss cps, decodeAll ss = some cps → cp ∈ cps →
      utf8_password_to_pdfdoc_dry e ss = -1 := by
  have hc : classify e cp = none := by
    obtain ⟨ht, hf⟩ := classify_control_none cp (by omega) h
    cases e
    · exact hf
    · exact ht
  exact ⟨hc, fun ss cps hd hmem => reject_of_mem e ss cps cp hd hmem hc⟩

/-- C10, witness at the newline code point 0x0A. -/
theorem c10_control_rejected_witness :
    classify true 0x0A = none :=
  (c10_control_rejected true 0x0A (by decide)).1
